import Mathlib

/-!
# Verification of the nginxparser parse-filter-aggregate pipeline

Shallow embedding of the core of `LLIEPJIOK/nginxparser` (Go):

* `internal/parser/data.go` — the shared aggregate `data` and `processLog`;
* `internal/parser/parser.go` — `get95p`, `frequentURLs`, `frequentStatuses`,
  `frequentAddresses`, `dataToFileInfo`, `lineToLog`, `convertLine`,
  `filterTime`, `matchLogByField`, `filterField`;
* `internal/domain/info.go` — the `FileInfo` report payload.

Modelling choices:

* Go maps (`map[string]int`, `map[int]int`) are modelled as association
  lists built only through `bump` (the embedding of `m[k]++`), so keys stay
  distinct; map iteration order is irrelevant to every statement proved here
  (sums and sorted outputs).
* Go `time.Time` values inside records are modelled by the `GoTime` calendar
  record produced by parsing with the fixed layout
  `02/Jan/2006:15:04:05 -0700`; `Format("02/Jan/2006")` re-renders exactly
  the parsed day/month/year fields, which is what the Go code observes.
  Where the code does absolute-time arithmetic (`filterTime`'s
  `After`/`Before`/`Truncate(24h)`), timestamps are modelled as `Int`
  nanoseconds since Go's zero time; `Truncate` rounds down to a multiple of
  24h since the zero time, i.e. floor arithmetic.
* `sort.Slice` is modelled by `List.insertionSort` with the non-strict
  companion of the Go comparator; for the comparators used here the sorted
  result is uniquely determined, so the choice of algorithm is immaterial.
* Go's in-place mutation in `get95p` (`sort.Slice` reorders the backing
  array of `parseData.sizeSlice`) is made explicit: `get95p` and
  `dataToFileInfo` return the updated slice/aggregate alongside the result.
* Fallible code returns `Option`/`Except`; Go's out-of-range indexing panic
  is modelled by `List.getD` with default `0`, and the in-bounds fact is
  proved separately for reachable aggregates.
* Machine integers are modelled by `Int`/`Nat`; the counters involved never
  overflow in the modelled scenarios.
-/

/-- Calendar timestamp as parsed by the fixed layout
`02/Jan/2006:15:04:05 -0700`: day/month/year, clock fields, and the numeric
zone offset in minutes.  Embeds the wall-clock view of Go's `time.Time`
that `Format(timeLayout)` observes. -/
structure GoTime where
  day : Nat
  month : Nat
  year : Nat
  hour : Nat
  minute : Nat
  second : Nat
  offMin : Int
  deriving DecidableEq, Repr

/-- One parsed log record — embedding of `internal/parser/log.go`
(`type log struct`, latest version with exported fields). -/
structure Log where
  RemoteAddress : String
  RemoteUser : String
  TimeLocal : GoTime
  Method : String
  URL : String
  HTTPVersion : String
  Status : Int
  BodyBytesSend : Int
  Referer : String
  UserAgent : String
  deriving DecidableEq, Repr

/-- Short month name used by Go's `Format` for layout token `Jan`. -/
def monthName : Nat → String
  | 1 => "Jan" | 2 => "Feb" | 3 => "Mar" | 4 => "Apr"
  | 5 => "May" | 6 => "Jun" | 7 => "Jul" | 8 => "Aug"
  | 9 => "Sep" | 10 => "Oct" | 11 => "Nov" | 12 => "Dec"
  | _ => ""

/-- Two-digit zero padding (Go layout token `02`). -/
def pad2 (n : Nat) : String :=
  if n < 10 then "0" ++ toString n else toString n

/-- Four-digit zero padding (Go layout token `2006`). -/
def pad4 (n : Nat) : String :=
  if n < 10 then "000" ++ toString n
  else if n < 100 then "00" ++ toString n
  else if n < 1000 then "0" ++ toString n
  else toString n

/-- Embedding of `logEntry.TimeLocal.Format(timeLayout)` with
`timeLayout = "02/Jan/2006"` (`internal/parser/data.go`). -/
def formatDMY (t : GoTime) : String :=
  pad2 t.day ++ "/" ++ monthName t.month ++ "/" ++ pad4 t.year

/-- The shared aggregate — embedding of `type data struct`
(`internal/parser/data.go`).  The `sync.RWMutex` only serialises
`processLog` calls and has no sequential content, so it is dropped; Go maps
become association lists. -/
structure data where
  paths : List String
  totalRequests : Nat
  urls : List (String × Nat)
  statuses : List (Int × Nat)
  sizeSum : Int
  sizeSlice : List Int
  addresses : List (String × Nat)
  requestsPerDay : List (String × Nat)
  deriving DecidableEq, Repr

/-- Embedding of `newData()`. -/
def newData : data :=
  { paths := [], totalRequests := 0, urls := [], statuses := [],
    sizeSum := 0, sizeSlice := [], addresses := [], requestsPerDay := [] }

/-- Embedding of the Go map increment `m[k]++`: bump the count stored under
`k`, inserting `1` if the key is absent. -/
def bump {κ : Type} [DecidableEq κ] : List (κ × Nat) → κ → List (κ × Nat)
  | [], k => [(k, 1)]
  | (k', v) :: rest, k =>
    if k' = k then (k', v + 1) :: rest else (k', v) :: bump rest k

/-- Embedding of the Go map read `m[k]` (default `0` when absent). -/
def countAt {κ : Type} [DecidableEq κ] : List (κ × Nat) → κ → Nat
  | [], _ => 0
  | (k', v) :: rest, k => if k' = k then v else countAt rest k

/-- Sum of all values of a modelled Go map. -/
def sumValues {κ : Type} (m : List (κ × Nat)) : Nat :=
  (m.map Prod.snd).sum

/-- Embedding of `(*data).processLog` (`internal/parser/data.go` lines
35–46): under the lock, increment the total, the per-URL, per-status,
per-address and per-day buckets, add the size to the running sum and append
it to the size list. -/
def processLog (d : data) (logEntry : Log) : data :=
  { d with
    totalRequests := d.totalRequests + 1
    urls := bump d.urls logEntry.URL
    statuses := bump d.statuses logEntry.Status
    sizeSum := d.sizeSum + logEntry.BodyBytesSend
    sizeSlice := d.sizeSlice ++ [logEntry.BodyBytesSend]
    addresses := bump d.addresses logEntry.RemoteAddress
    requestsPerDay := bump d.requestsPerDay (formatDMY logEntry.TimeLocal) }

/-- A finite sequence of `processLog` calls applied to a fresh aggregate —
the sequential content of the Aggregator stage (`collect`). -/
def runLogs (logs : List Log) : data :=
  logs.foldl processLog newData

namespace domain

/-- Embedding of `domain.URL` (`internal/domain/info.go`). -/
structure URL where
  Name : String
  Quantity : Nat
  deriving DecidableEq, Repr

/-- Embedding of `domain.Status`.  The latest `frequentStatuses` constructs
entries from the numeric code and the count (`domain.NewStatus(status,
quantity)`); the reason-phrase name plays no role in any property proved
here, so only those two fields are modelled. -/
structure Status where
  Code : Int
  Quantity : Nat
  deriving DecidableEq, Repr

/-- Embedding of `domain.Address` (`internal/domain/info.go`). -/
structure Address where
  Name : String
  Quantity : Nat
  deriving DecidableEq, Repr

/-- Embedding of `domain.FileInfo` (latest version, with per-day average and
address table). -/
structure FileInfo where
  Paths : List String
  TotalRequests : Nat
  AvgResponseSize : Int
  ResponseSize95p : Int
  AvgResponsePerDay : Nat
  FrequentURLs : List URL
  FrequentStatuses : List Status
  FrequentAddresses : List Address
  deriving DecidableEq, Repr

/-- The Go zero value `&domain.FileInfo{}` returned for an empty aggregate. -/
def FileInfo.empty : FileInfo :=
  { Paths := [], TotalRequests := 0, AvgResponseSize := 0,
    ResponseSize95p := 0, AvgResponsePerDay := 0, FrequentURLs := [],
    FrequentStatuses := [], FrequentAddresses := [] }

end domain

/-- Embedding of `const frequencyLimit = 3`. -/
def frequencyLimit : Nat := 3

/-- Non-strict companion of the `sort.Slice` comparator used by
`frequentURLs` (and `frequentAddresses`): descending quantity, ties broken
by ascending name.  `urlLe a b` holds exactly when the Go `less(b, a)` is
false. -/
def urlLe (a b : domain.URL) : Prop :=
  b.Quantity < a.Quantity ∨ (a.Quantity = b.Quantity ∧ a.Name ≤ b.Name)

/-- Non-strict companion of the comparator of `frequentStatuses`:
descending quantity, ties broken by ascending code. -/
def statusLe (a b : domain.Status) : Prop :=
  b.Quantity < a.Quantity ∨ (a.Quantity = b.Quantity ∧ a.Code ≤ b.Code)

/-- Non-strict companion of the comparator of `frequentAddresses`. -/
def addrLe (a b : domain.Address) : Prop :=
  b.Quantity < a.Quantity ∨ (a.Quantity = b.Quantity ∧ a.Name ≤ b.Name)

instance : DecidableRel urlLe := fun a b => by
  unfold urlLe; infer_instance

instance : DecidableRel statusLe := fun a b => by
  unfold statusLe; infer_instance

instance : DecidableRel addrLe := fun a b => by
  unfold addrLe; infer_instance

instance : IsTotal domain.URL urlLe where
  total a b := by
    unfold urlLe
    rcases Nat.lt_trichotomy a.Quantity b.Quantity with h | h | h
    · exact Or.inr (Or.inl h)
    · rcases le_total a.Name b.Name with hn | hn
      · exact Or.inl (Or.inr ⟨h, hn⟩)
      · exact Or.inr (Or.inr ⟨h.symm, hn⟩)
    · exact Or.inl (Or.inl h)

instance : IsTrans domain.URL urlLe where
  trans a b c hab hbc := by
    unfold urlLe at *
    rcases hab with h | ⟨he, hn⟩
    · rcases hbc with h' | ⟨he', _⟩
      · exact Or.inl (h'.trans h)
      · exact Or.inl (lt_of_eq_of_lt he'.symm h)
    · rcases hbc with h' | ⟨he', hn'⟩
      · exact Or.inl (lt_of_lt_of_eq h' he.symm)
      · exact Or.inr ⟨he.trans he', hn.trans hn'⟩

instance : IsTotal domain.Status statusLe where
  total a b := by
    unfold statusLe
    rcases Nat.lt_trichotomy a.Quantity b.Quantity with h | h | h
    · exact Or.inr (Or.inl h)
    · rcases le_total a.Code b.Code with hn | hn
      · exact Or.inl (Or.inr ⟨h, hn⟩)
      · exact Or.inr (Or.inr ⟨h.symm, hn⟩)
    · exact Or.inl (Or.inl h)

instance : IsTrans domain.Status statusLe where
  trans a b c hab hbc := by
    unfold statusLe at *
    rcases hab with h | ⟨he, hn⟩
    · rcases hbc with h' | ⟨he', _⟩
      · exact Or.inl (h'.trans h)
      · exact Or.inl (lt_of_eq_of_lt he'.symm h)
    · rcases hbc with h' | ⟨he', hn'⟩
      · exact Or.inl (lt_of_lt_of_eq h' he.symm)
      · exact Or.inr ⟨he.trans he', hn.trans hn'⟩

instance : IsTotal domain.Address addrLe where
  total a b := by
    unfold addrLe
    rcases Nat.lt_trichotomy a.Quantity b.Quantity with h | h | h
    · exact Or.inr (Or.inl h)
    · rcases le_total a.Name b.Name with hn | hn
      · exact Or.inl (Or.inr ⟨h, hn⟩)
      · exact Or.inr (Or.inr ⟨h.symm, hn⟩)
    · exact Or.inl (Or.inl h)

instance : IsTrans domain.Address addrLe where
  trans a b c hab hbc := by
    unfold addrLe at *
    rcases hab with h | ⟨he, hn⟩
    · rcases hbc with h' | ⟨he', _⟩
      · exact Or.inl (h'.trans h)
      · exact Or.inl (lt_of_eq_of_lt he'.symm h)
    · rcases hbc with h' | ⟨he', hn'⟩
      · exact Or.inl (lt_of_lt_of_eq h' he.symm)
      · exact Or.inr ⟨he.trans he', hn.trans hn'⟩

/-- Embedding of `frequentURLs` (`internal/parser/parser.go` lines 617–635):
turn the per-URL map into entries, sort by descending count with ties broken
by ascending name, and truncate to `min frequencyLimit length`. -/
def frequentURLs (parseData : data) : List domain.URL :=
  let fu := parseData.urls.map fun p => domain.URL.mk p.1 p.2
  let fu := List.insertionSort urlLe fu
  fu.take (min frequencyLimit fu.length)

/-- Embedding of `frequentStatuses` (lines 637–658). -/
def frequentStatuses (parseData : data) : List domain.Status :=
  let fs := parseData.statuses.map fun p => domain.Status.mk p.1 p.2
  let fs := List.insertionSort statusLe fs
  fs.take (min frequencyLimit fs.length)

/-- Embedding of `frequentAddresses` (lines 660–681). -/
def frequentAddresses (parseData : data) : List domain.Address :=
  let fa := parseData.addresses.map fun p => domain.Address.mk p.1 p.2
  let fa := List.insertionSort addrLe fa
  fa.take (min frequencyLimit fa.length)

/-- Embedding of `get95p` (lines 607–613).  `sort.Slice` sorts the slice's
backing array in place, so the function returns both `sl[95*len(sl)/100]`
and the now-sorted slice; Go's panic on an out-of-range index is modelled by
`getD` with default `0` (the in-bounds fact for reachable aggregates is
proved separately). -/
def get95p (sl : List Int) : Int × List Int :=
  let sorted := List.insertionSort (fun a b : Int => a ≤ b) sl
  (sorted.getD (95 * sorted.length / 100) 0, sorted)

/-- Embedding of `dataToFileInfo` (lines 683–712).  The second component is
the aggregate as left behind by the call: identical to the input except that
`get95p` sorted `sizeSlice` in place (when `totalRequests ≠ 0`).  Division
is Go integer division; all dividends/divisors reached by the program are
non-negative, where Lean's `Int` and `Nat` division agree with Go.  Go's
division-by-zero panic for an empty per-day map (unreachable from the
pipeline) is modelled by Lean's total division. -/
def dataToFileInfo (parseData : data) : domain.FileInfo × data :=
  if parseData.totalRequests = 0 then (domain.FileInfo.empty, parseData)
  else
    let p95 := get95p parseData.sizeSlice
    let avgResponseSize := parseData.sizeSum / (parseData.totalRequests : Int)
    let avgResponsesPerDay :=
      sumValues parseData.requestsPerDay / parseData.requestsPerDay.length
    ({ Paths := parseData.paths
       TotalRequests := parseData.totalRequests
       AvgResponseSize := avgResponseSize
       ResponseSize95p := p95.1
       AvgResponsePerDay := avgResponsesPerDay
       FrequentURLs := frequentURLs parseData
       FrequentStatuses := frequentStatuses parseData
       FrequentAddresses := frequentAddresses parseData },
     { parseData with sizeSlice := p95.2 })

/-- Nanoseconds in 24 hours — the `24*time.Hour` duration. -/
def dayNanos : Int := 86400000000000

/-- Embedding of `t.Truncate(24*time.Hour)` on absolute nanoseconds since
Go's zero time: round down to a multiple of 24h (Go's `Truncate` rounds
toward the zero time, i.e. floor). -/
def truncDay (t : Int) : Int := t - t % dayNanos

/-- Embedding of the predicate inside `filterTime` (`internal/parser/parser.go`
lines 928–957): the record with timestamp `t` (absolute nanoseconds) is
forwarded unless `from != nil && from.After(t)` or
`to != nil && to.Before(t.Truncate(24h))`. -/
def filterTimeKeep (tfrom tto : Option Int) (t : Int) : Bool :=
  let dropFrom := match tfrom with
    | some f => decide (t < f)
    | none => false
  let dropTo := match tto with
    | some v => decide (v < truncDay t)
    | none => false
  !(dropFrom || dropTo)

/-- Whitespace class of RE2's `\s` (`[\t\n\f\r ]`); `\S` is its complement. -/
def isPerlSpace (c : Char) : Bool :=
  c = ' ' || c = '\t' || c = '\n' || c = '\x0c' || c = '\x0d'

/-- The ten capture groups of the access-log regular expression, in order. -/
structure Captures where
  remoteAddress : String
  remoteUser : String
  timeLocal : String
  method : String
  url : String
  httpVersion : String
  status : String
  size : String
  referer : String
  userAgent : String
  deriving DecidableEq, Repr

/-- Split off the maximal prefix of characters matched by `\S` (any
non-whitespace character). -/
def spanNonSpace (l : List Char) : List Char × List Char :=
  (l.takeWhile (fun c => !isPerlSpace c), l.dropWhile (fun c => !isPerlSpace c))

/-- Split off the maximal prefix of characters other than `stop`. -/
def spanNot (stop : Char) (l : List Char) : List Char × List Char :=
  (l.takeWhile (fun c => c ≠ stop), l.dropWhile (fun c => c ≠ stop))

/-- Split off the maximal prefix of decimal digits (`\d`). -/
def spanDigits (l : List Char) : List Char × List Char :=
  (l.takeWhile Char.isDigit, l.dropWhile Char.isDigit)

/-- Embedding of `regex.FindStringSubmatch` for the fixed anchored pattern
compiled in `NewParser`:

    ^(\S+) - (\S+) \[([^\]]+)\] "(\S+) (\S+) (\S+)" (\d+) (\d+) "([^"]+)" "([^"]*)"$

For this pattern the match is deterministic: every variable-width group is
delimited by a character its class cannot contain, except the protocol
group `(\S+)` before `"`, whose non-space run must end with the closing
quote (the quote is the last run character, since the following literal is
a space).  Returns the ten capture groups, or `none` when the line does not
match. -/
def matchAccessLog (s : String) : Option Captures := do
  let l := s.data
  let (g1, l) := spanNonSpace l
  if g1.isEmpty then none else
  let l ← match l with
    | ' ' :: '-' :: ' ' :: rest => some rest
    | _ => none
  let (g2, l) := spanNonSpace l
  if g2.isEmpty then none else
  let l ← match l with
    | ' ' :: '[' :: rest => some rest
    | _ => none
  let (g3, l) := spanNot ']' l
  if g3.isEmpty then none else
  let l ← match l with
    | ']' :: ' ' :: '"' :: rest => some rest
    | _ => none
  let (g4, l) := spanNonSpace l
  if g4.isEmpty then none else
  let l ← match l with
    | ' ' :: rest => some rest
    | _ => none
  let (g5, l) := spanNonSpace l
  if g5.isEmpty then none else
  let l ← match l with
    | ' ' :: rest => some rest
    | _ => none
  let (run, l) := spanNonSpace l
  let g6 := run.dropLast
  if g6.isEmpty then none else
  if run.getLast? ≠ some '"' then none else
  let l ← match l with
    | ' ' :: rest => some rest
    | _ => none
  let (g7, l) := spanDigits l
  if g7.isEmpty then none else
  let l ← match l with
    | ' ' :: rest => some rest
    | _ => none
  let (g8, l) := spanDigits l
  if g8.isEmpty then none else
  let l ← match l with
    | ' ' :: '"' :: rest => some rest
    | _ => none
  let (g9, l) := spanNot '"' l
  if g9.isEmpty then none else
  let l ← match l with
    | '"' :: ' ' :: '"' :: rest => some rest
    | _ => none
  let (g10, l) := spanNot '"' l
  match l with
  | ['"'] =>
    some { remoteAddress := String.mk g1, remoteUser := String.mk g2,
           timeLocal := String.mk g3, method := String.mk g4,
           url := String.mk g5, httpVersion := String.mk g6,
           status := String.mk g7, size := String.mk g8,
           referer := String.mk g9, userAgent := String.mk g10 }
  | _ => none

/-- Numeric value of a list of decimal digit characters. -/
def digitsToNat (l : List Char) : Nat :=
  l.foldl (fun acc c => acc * 10 + (c.toNat - '0'.toNat)) 0

/-- Month-name lookup of Go's `time.Parse` for layout token `Jan`:
case-insensitive comparison against the short month names (Go's `lookup`
compares ASCII letters modulo case). -/
def monthNum (a b c : Char) : Option Nat :=
  match String.mk [a.toLower, b.toLower, c.toLower] with
  | "jan" => some 1 | "feb" => some 2 | "mar" => some 3 | "apr" => some 4
  | "may" => some 5 | "jun" => some 6 | "jul" => some 7 | "aug" => some 8
  | "sep" => some 9 | "oct" => some 10 | "nov" => some 11 | "dec" => some 12
  | _ => none

/-- Go's leap-year rule (`time.isLeap`). -/
def isLeap (y : Nat) : Bool :=
  y % 4 = 0 && (y % 100 ≠ 0 || y % 400 = 0)

/-- Days in a month (`time.daysIn`), for the day-of-month range check of
`time.Parse`. -/
def daysIn (m y : Nat) : Nat :=
  if m = 2 then (if isLeap y then 29 else 28)
  else if m = 4 ∨ m = 6 ∨ m = 9 ∨ m = 11 then 30
  else 31

/-- Exactly two digits (layout tokens `02`, `04`, `05` parse with
`getnum(value, fixed := true)`). -/
def twoDigits (l : List Char) : Option (Nat × List Char) :=
  match l with
  | c1 :: c2 :: rest =>
    if c1.isDigit && c2.isDigit then
      some (digitsToNat [c1, c2], rest)
    else none
  | _ => none

/-- One or two digits (layout token `15` parses the hour with
`getnum(value, fixed := false)`: two digits when the second character is
also a digit, else one). -/
def oneOrTwoDigits (l : List Char) : Option (Nat × List Char) :=
  match l with
  | c1 :: c2 :: rest =>
    if c1.isDigit then
      if c2.isDigit then some (digitsToNat [c1, c2], rest)
      else some (digitsToNat [c1], c2 :: rest)
    else none
  | [c1] => if c1.isDigit then some (digitsToNat [c1], []) else none
  | [] => none

/-- Embedding of `time.Parse("02/Jan/2006:15:04:05 -0700", value)`:
structural match of the fixed layout, followed by `time.Parse`'s range
checks (day of month against the month's length, hour < 24,
minute/second < 60; the numeric zone offset is not range-checked).
Returns the parsed calendar record, or `none` exactly when Go's parse
returns an error. -/
def goParseTimestamp (s : String) : Option GoTime := do
  let l := s.data
  let (day, l) ← twoDigits l
  let l ← match l with | '/' :: rest => some rest | _ => none
  let (mon, l) ← match l with
    | a :: b :: c :: rest => (monthNum a b c).map fun m => (m, rest)
    | _ => none
  let l ← match l with | '/' :: rest => some rest | _ => none
  let (year, l) ← match l with
    | a :: b :: c :: d :: rest =>
      if a.isDigit && b.isDigit && c.isDigit && d.isDigit then
        some (digitsToNat [a, b, c, d], rest)
      else none
    | _ => none
  let l ← match l with | ':' :: rest => some rest | _ => none
  let (hour, l) ← oneOrTwoDigits l
  let l ← match l with | ':' :: rest => some rest | _ => none
  let (minute, l) ← twoDigits l
  let l ← match l with | ':' :: rest => some rest | _ => none
  let (second, l) ← twoDigits l
  let l ← match l with | ' ' :: rest => some rest | _ => none
  let (sign, l) ← match l with
    | '+' :: rest => some ((1 : Int), rest)
    | '-' :: rest => some ((-1 : Int), rest)
    | _ => none
  let (zh, zm) ← match l with
    | a :: b :: c :: d :: [] =>
      if a.isDigit && b.isDigit && c.isDigit && d.isDigit then
        some (digitsToNat [a, b], digitsToNat [c, d])
      else none
    | _ => none
  if 1 ≤ day ∧ day ≤ daysIn mon year ∧ hour < 24 ∧ minute < 60 ∧ second < 60
  then
    some { day := day, month := mon, year := year, hour := hour,
           minute := minute, second := second,
           offMin := sign * ((zh : Int) * 60 + (zm : Int)) }
  else none

/-- Embedding of `strconv.Atoi`: optional sign, one or more decimal digits,
value within the 64-bit `int` range; `none` exactly when Go returns an
error (syntax or range). -/
def goAtoi (s : String) : Option Int :=
  let signed : Int → List Char → Option Int := fun sign l =>
    if l.isEmpty then none
    else if l.all Char.isDigit then
      let n := digitsToNat l
      let v : Int := sign * (n : Int)
      if -9223372036854775808 ≤ v ∧ v ≤ 9223372036854775807 then some v
      else none
    else none
  match s.data with
  | '+' :: rest => signed 1 rest
  | '-' :: rest => signed (-1) rest
  | l => signed 1 l

/-- The status codes for which Go's `http.StatusText` returns a non-empty
reason phrase (the registered codes of `net/http/status.go`). -/
def registeredStatusCodes : List Int :=
  [100, 101, 102, 103,
   200, 201, 202, 203, 204, 205, 206, 207, 208, 226,
   300, 301, 302, 303, 304, 305, 307, 308,
   400, 401, 402, 403, 404, 405, 406, 407, 408, 409, 410, 411, 412, 413,
   414, 415, 416, 417, 418, 421, 422, 423, 424, 425, 426, 428, 429, 431,
   451,
   500, 501, 502, 503, 504, 505, 506, 507, 508, 510, 511]

/-- `http.StatusText(status) != ""`. -/
def statusRegistered (status : Int) : Bool :=
  registeredStatusCodes.contains status

/-- The error cases of `lineToLog`, in the order the code checks them. -/
inductive LogError where
  | regexp
  | time
  | statusSyntax
  | badStatus
  | sizeSyntax
  deriving DecidableEq, Repr

/-- Embedding of `(*Parser).lineToLog` (`internal/parser/parser.go` lines
730–767): match the access-log pattern, parse the bracketed timestamp with
the fixed layout, parse the status with `strconv.Atoi` and require a
registered reason phrase, parse the size with `strconv.Atoi`, and build the
record from the ten capture groups. -/
def lineToLog (line : String) : Except LogError Log :=
  match matchAccessLog line with
  | none => .error .regexp
  | some m =>
    match goParseTimestamp m.timeLocal with
    | none => .error .time
    | some parsedTime =>
      match goAtoi m.status with
      | none => .error .statusSyntax
      | some status =>
        if statusRegistered status = false then .error .badStatus
        else
          match goAtoi m.size with
          | none => .error .sizeSyntax
          | some bodyBytesSent =>
            .ok { RemoteAddress := m.remoteAddress
                  RemoteUser := m.remoteUser
                  TimeLocal := parsedTime
                  Method := m.method
                  URL := m.url
                  HTTPVersion := m.httpVersion
                  Status := status
                  BodyBytesSend := bodyBytesSent
                  Referer := m.referer
                  UserAgent := m.userAgent }

/-- Pair each line with a line number counting up from `n`. -/
def numberFrom (n : Nat) : List String → List (String × Nat)
  | [] => []
  | t :: rest => (t, n) :: numberFrom (n + 1) rest

/-- Embedding of `read`'s line numbering: lines of one source are paired
with 1-based line numbers (`lineNumber := 1`, incremented per line). -/
def numberLines (texts : List String) : List (String × Nat) :=
  numberFrom 1 texts

/-- Sequential content of `convertLine` (`internal/parser/parser.go` lines
847–875): convert each numbered line in order; the first failing line
aborts the run with its line number attached to the error
(`convert line #%d to log entry: %w`). -/
def convertLines : List (String × Nat) → Except (Nat × LogError) (List Log)
  | [] => .ok []
  | (t, n) :: rest =>
    match lineToLog t with
    | .error e => .error (n, e)
    | .ok logEntry =>
      match convertLines rest with
      | .error e => .error e
      | .ok logs => .ok (logEntry :: logs)

/-- Abstract syntax of the regular-expression subset modelling Go's
`regexp` patterns as used by the field filter: the empty-set and
empty-string expressions, single characters, the any-character dot,
concatenation, alternation and Kleene star. -/
inductive RE where
  | emp
  | eps
  | chr (c : Char)
  | dot
  | cat (a b : RE)
  | alt (a b : RE)
  | star (a : RE)
  deriving DecidableEq, Repr

/-- Does the expression accept the empty string? -/
def RE.nullable : RE → Bool
  | .emp => false
  | .eps => true
  | .chr _ => false
  | .dot => false
  | .cat a b => a.nullable && b.nullable
  | .alt a b => a.nullable || b.nullable
  | .star _ => true

/-- Brzozowski derivative with respect to one character. -/
def RE.deriv : RE → Char → RE
  | .emp, _ => .emp
  | .eps, _ => .emp
  | .chr c, x => if c = x then .eps else .emp
  | .dot, _ => .eps
  | .cat a b, x =>
    if a.nullable then .alt (.cat (a.deriv x) b) (b.deriv x)
    else .cat (a.deriv x) b
  | .alt a b, x => .alt (a.deriv x) (b.deriv x)
  | .star a, x => .cat (a.deriv x) (.star a)

/-- Does some prefix of `l` (possibly empty, possibly all of `l`) match the
expression? -/
def RE.matchPre (re : RE) : List Char → Bool
  | [] => re.nullable
  | c :: rest => re.nullable || (re.deriv c).matchPre rest

/-- Unanchored containment semantics of `regexp.MatchString`: some
substring of `l` (starting at any position) matches the expression. -/
def RE.matchContains (re : RE) : List Char → Bool
  | [] => re.nullable
  | c :: rest => re.matchPre (c :: rest) || re.matchContains rest

/-- One postfix repetition operator applied to a parsed factor:
`r*`, `r+` (= `r r*`), `r?` (= `r | ε`). -/
def applyPostfix (r : RE) : Char → RE
  | '*' => .star r
  | '+' => .cat r (.star r)
  | _ => .alt r .eps

mutual

/-- Recursive-descent parsing of an alternation (`a|b|c`). -/
def parseAlt (fuel : Nat) (l : List Char) : Option (RE × List Char) :=
  match fuel with
  | 0 => none
  | fuel + 1 => do
    let (r, rest) ← parseCat fuel l
    match rest with
    | '|' :: rest2 => do
      let (r2, rest3) ← parseAlt fuel rest2
      some (.alt r r2, rest3)
    | _ => some (r, rest)

/-- Recursive-descent parsing of a concatenation of factors, each with at
most one postfix operator (Go rejects directly nested repetitions such as
`a**`). -/
def parseCat (fuel : Nat) (l : List Char) : Option (RE × List Char) :=
  match fuel with
  | 0 => none
  | fuel + 1 =>
    match l with
    | [] => some (.eps, [])
    | '|' :: _ => some (.eps, l)
    | ')' :: _ => some (.eps, l)
    | '*' :: _ => none
    | '+' :: _ => none
    | '?' :: _ => none
    | _ => do
      let (r, rest) ← parseFactor fuel l
      let (r, rest) := match rest with
        | op :: rest2 =>
          if op = '*' ∨ op = '+' ∨ op = '?' then (applyPostfix r op, rest2)
          else (r, rest)
        | [] => (r, [])
      match rest with
      | op :: _ =>
        if op = '*' ∨ op = '+' ∨ op = '?' then none
        else do
          let (r2, rest2) ← parseCat fuel rest
          some (.cat r r2, rest2)
      | [] => some (r, [])

/-- One factor: a parenthesised group, the dot, an escaped literal
character, or a plain literal character.  Character classes, anchors,
braces and alphanumeric escape classes are outside the modelled subset and
are rejected. -/
def parseFactor (fuel : Nat) (l : List Char) : Option (RE × List Char) :=
  match fuel with
  | 0 => none
  | fuel + 1 =>
    match l with
    | '(' :: rest => do
      let (r, rest2) ← parseAlt fuel rest
      match rest2 with
      | ')' :: rest3 => some (r, rest3)
      | _ => none
    | '.' :: rest => some (.dot, rest)
    | '\\' :: c :: rest =>
      if c.isAlphanum then none else some (.chr c, rest)
    | '\\' :: [] => none
    | '[' :: _ => none
    | ']' :: _ => none
    | '{' :: _ => none
    | '}' :: _ => none
    | '^' :: _ => none
    | '$' :: _ => none
    | c :: rest => some (.chr c, rest)
    | [] => none

end

/-- Modelling of `regexp.Compile` on the subset of Go pattern syntax
described at `parseFactor`: `none` when the pattern is rejected (in
particular on every pattern Go itself rejects, such as a dangling `)` or a
repetition operator with no operand). -/
def compileRegex (pattern : String) : Option RE :=
  match parseAlt (4 * pattern.length + 4) pattern.data with
  | some (r, []) => some r
  | _ => none

/-- `regexp.MatchString(pattern, value)`: `none` models the compile error,
otherwise the unanchored containment match. -/
def goMatchString (pattern value : String) : Option Bool :=
  (compileRegex pattern).map fun re => re.matchContains value.data

/-- The text the field filter extracts for a named field: the dynamic
`reflect`-based field access of `matchLogByField` over the exported fields
of `log`, with string fields taken verbatim, `int` fields rendered in
decimal (`%d`), and `TimeLocal` rendered with the `02/Jan/2006` layout.
`none` models `!fieldValue.IsValid()` — an unknown (or empty) field name. -/
def fieldText (logEntry : Log) (filed : String) : Option String :=
  match filed with
  | "RemoteAddress" => some logEntry.RemoteAddress
  | "RemoteUser" => some logEntry.RemoteUser
  | "TimeLocal" => some (formatDMY logEntry.TimeLocal)
  | "Method" => some logEntry.Method
  | "URL" => some logEntry.URL
  | "HTTPVersion" => some logEntry.HTTPVersion
  | "Status" => some (toString logEntry.Status)
  | "BodyBytesSend" => some (toString logEntry.BodyBytesSend)
  | "Referer" => some logEntry.Referer
  | "UserAgent" => some logEntry.UserAgent
  | _ => none

/-- Embedding of `matchLogByField` (`internal/parser/parser.go` lines
1011–1068): an invalid field name keeps the record before the pattern is
ever compiled; otherwise the field text is matched against the pattern,
and only a pattern compile failure yields an error. -/
def matchLogByField (logEntry : Log) (filed pattern : String) :
    Except Unit Bool :=
  match fieldText logEntry filed with
  | none => .ok true
  | some value =>
    match goMatchString pattern value with
    | none => .error ()
    | some matched => .ok matched

/-- Sequential content of `filterField` (lines 1070–1101): forward the
records `matchLogByField` accepts, abort on its error. -/
def filterField (filed pattern : String) : List Log → Except Unit (List Log)
  | [] => .ok []
  | logEntry :: rest =>
    match matchLogByField logEntry filed pattern with
    | .error e => .error e
    | .ok true =>
      match filterField filed pattern rest with
      | .error e => .error e
      | .ok kept => .ok (logEntry :: kept)
    | .ok false => filterField filed pattern rest

theorem sumValues_nil {κ : Type} : sumValues ([] : List (κ × Nat)) = 0 := rfl

theorem sumValues_bump {κ : Type} [DecidableEq κ] (m : List (κ × Nat))
    (k : κ) : sumValues (bump m k) = sumValues m + 1 := by
  induction m with
  | nil => rfl
  | cons p rest ih =>
    obtain ⟨k', v⟩ := p
    by_cases h : k' = k
    · simp [bump, h, sumValues, Nat.add_assoc, Nat.add_comm 1]
    · simp [bump, h, sumValues] at ih ⊢
      omega

theorem countAt_bump_self {κ : Type} [DecidableEq κ] (m : List (κ × Nat))
    (k : κ) : countAt (bump m k) k = countAt m k + 1 := by
  induction m with
  | nil => simp [bump, countAt]
  | cons p rest ih =>
    obtain ⟨k', v⟩ := p
    by_cases h : k' = k
    · simp [bump, h, countAt]
    · simp [bump, h, countAt, ih]

theorem countAt_bump_ne {κ : Type} [DecidableEq κ] (m : List (κ × Nat))
    (k k' : κ) (h : k' ≠ k) : countAt (bump m k) k' = countAt m k' := by
  induction m with
  | nil => simp [bump, countAt, Ne.symm h]
  | cons p rest ih =>
    obtain ⟨k'', v⟩ := p
    by_cases h2 : k'' = k
    · simp [bump, countAt, h2, Ne.symm h]
    · simp [bump, countAt, h2, ih]

theorem bump_ne_nil {κ : Type} [DecidableEq κ] (m : List (κ × Nat)) (k : κ) :
    bump m k ≠ [] := by
  cases m with
  | nil => simp [bump]
  | cons p rest =>
    obtain ⟨k', v⟩ := p
    by_cases h : k' = k <;> simp [bump, h]

/-- All the per-record counting facts of one `foldl` of `processLog`, with
the accumulator generalised. -/
theorem foldl_processLog_counts (logs : List Log) (d : data) :
    (logs.foldl processLog d).totalRequests = d.totalRequests + logs.length ∧
    sumValues (logs.foldl processLog d).urls
      = sumValues d.urls + logs.length ∧
    sumValues (logs.foldl processLog d).statuses
      = sumValues d.statuses + logs.length ∧
    sumValues (logs.foldl processLog d).addresses
      = sumValues d.addresses + logs.length ∧
    sumValues (logs.foldl processLog d).requestsPerDay
      = sumValues d.requestsPerDay + logs.length ∧
    (logs.foldl processLog d).sizeSlice.length
      = d.sizeSlice.length + logs.length := by
  induction logs generalizing d with
  | nil => simp
  | cons lg rest ih =>
    obtain ⟨h1, h2, h3, h4, h5, h6⟩ := ih (processLog d lg)
    simp only [List.foldl_cons]
    rw [h1, h2, h3, h4, h5, h6]
    refine ⟨?_, ?_, ?_, ?_, ?_, ?_⟩ <;>
      simp [processLog, sumValues_bump] <;> omega

theorem foldl_processLog_day_ne_nil (logs : List Log) (d : data)
    (h : logs ≠ [] ∨ d.requestsPerDay ≠ []) :
    (logs.foldl processLog d).requestsPerDay ≠ [] := by
  induction logs generalizing d with
  | nil =>
    rcases h with h | h
    · exact absurd rfl h
    · simpa using h
  | cons lg rest ih =>
    simp only [List.foldl_cons]
    exact ih (processLog d lg) (Or.inr (bump_ne_nil _ _))

/-- A concrete parsed record used by the concrete witnesses below. -/
def sampleLog : Log :=
  { RemoteAddress := "130.41.23.21", RemoteUser := "-",
    TimeLocal := { day := 22, month := 10, year := 2024, hour := 9,
                   minute := 48, second := 45, offMin := 0 },
    Method := "GET", URL := "/a", HTTPVersion := "HTTP/1.1",
    Status := 200, BodyBytesSend := 2232, Referer := "-",
    UserAgent := "Mozilla" }

/-- A second concrete record, on the next calendar day. -/
def sampleLog2 : Log :=
  { RemoteAddress := "8.177.148.191", RemoteUser := "-",
    TimeLocal := { day := 23, month := 10, year := 2024, hour := 10,
                   minute := 0, second := 0, offMin := 0 },
    Method := "POST", URL := "/b", HTTPVersion := "HTTP/1.1",
    Status := 404, BodyBytesSend := 92, Referer := "-",
    UserAgent := "curl" }

/-- The untruncated status table: the sorted per-status entries before the
`take` to `frequencyLimit`. -/
def statusTableFull (parseData : data) : List domain.Status :=
  List.insertionSort statusLe
    (parseData.statuses.map fun p => domain.Status.mk p.1 p.2)

/-- C1: for every finite sequence of `processLog` calls on a fresh
aggregate, the total equals the number of records and equals the sum of the
per-URL, per-status, per-address and per-day counts and the size-list
length; each single `processLog` call increments the total, exactly the
record's own URL/status/address/day bucket, and the size-list length by
exactly one, leaving every other bucket unchanged; and in the produced
`FileInfo` the untruncated status-table counts sum to `TotalRequests`. -/
theorem C1_processLog_invariant :
    (∀ logs : List Log,
      (runLogs logs).totalRequests = logs.length ∧
      sumValues (runLogs logs).urls = (runLogs logs).totalRequests ∧
      sumValues (runLogs logs).statuses = (runLogs logs).totalRequests ∧
      sumValues (runLogs logs).addresses = (runLogs logs).totalRequests ∧
      sumValues (runLogs logs).requestsPerDay
        = (runLogs logs).totalRequests ∧
      (runLogs logs).sizeSlice.length = (runLogs logs).totalRequests) ∧
    (∀ (d : data) (lg : Log),
      (processLog d lg).totalRequests = d.totalRequests + 1 ∧
      countAt (processLog d lg).urls lg.URL = countAt d.urls lg.URL + 1 ∧
      (∀ k, k ≠ lg.URL →
        countAt (processLog d lg).urls k = countAt d.urls k) ∧
      countAt (processLog d lg).statuses lg.Status
        = countAt d.statuses lg.Status + 1 ∧
      (∀ k, k ≠ lg.Status →
        countAt (processLog d lg).statuses k = countAt d.statuses k) ∧
      countAt (processLog d lg).addresses lg.RemoteAddress
        = countAt d.addresses lg.RemoteAddress + 1 ∧
      (∀ k, k ≠ lg.RemoteAddress →
        countAt (processLog d lg).addresses k = countAt d.addresses k) ∧
      countAt (processLog d lg).requestsPerDay (formatDMY lg.TimeLocal)
        = countAt d.requestsPerDay (formatDMY lg.TimeLocal) + 1 ∧
      (∀ k, k ≠ formatDMY lg.TimeLocal →
        countAt (processLog d lg).requestsPerDay k
          = countAt d.requestsPerDay k) ∧
      (processLog d lg).sizeSlice.length = d.sizeSlice.length + 1) ∧
    (∀ logs : List Log,
      ((dataToFileInfo (runLogs logs)).1).TotalRequests
        = (runLogs logs).totalRequests ∧
      ((statusTableFull (runLogs logs)).map domain.Status.Quantity).sum
        = ((dataToFileInfo (runLogs logs)).1).TotalRequests) := by
  have counts : ∀ logs : List Log,
      (runLogs logs).totalRequests = logs.length ∧
      sumValues (runLogs logs).urls = logs.length ∧
      sumValues (runLogs logs).statuses = logs.length ∧
      sumValues (runLogs logs).addresses = logs.length ∧
      sumValues (runLogs logs).requestsPerDay = logs.length ∧
      (runLogs logs).sizeSlice.length = logs.length := by
    intro logs
    have h := foldl_processLog_counts logs newData
    simpa [runLogs, newData, sumValues] using h
  have hsum : ∀ d : data,
      ((statusTableFull d).map domain.Status.Quantity).sum
        = sumValues d.statuses := by
    intro d
    have hperm : (statusTableFull d).Perm
        (d.statuses.map fun p => domain.Status.mk p.1 p.2) :=
      List.perm_insertionSort _ _
    have := (hperm.map domain.Status.Quantity).sum_eq
    rw [statusTableFull] at this ⊢
    rw [this, List.map_map, sumValues]
    rfl
  refine ⟨?_, ?_, ?_⟩
  · intro logs
    obtain ⟨h1, h2, h3, h4, h5, h6⟩ := counts logs
    exact ⟨h1, by omega, by omega, by omega, by omega, by omega⟩
  · intro d lg
    refine ⟨rfl, ?_, ?_, ?_, ?_, ?_, ?_, ?_, ?_, ?_⟩
    · exact countAt_bump_self _ _
    · exact fun k hk => countAt_bump_ne _ _ _ hk
    · exact countAt_bump_self _ _
    · exact fun k hk => countAt_bump_ne _ _ _ hk
    · exact countAt_bump_self _ _
    · exact fun k hk => countAt_bump_ne _ _ _ hk
    · exact countAt_bump_self _ _
    · exact fun k hk => countAt_bump_ne _ _ _ hk
    · simp [processLog]
  · intro logs
    by_cases h0 : (runLogs logs).totalRequests = 0
    · obtain ⟨h1, h2, h3, h4, h5, h6⟩ := counts logs
      constructor
      · simp [dataToFileInfo, h0, domain.FileInfo.empty]
      · rw [hsum]
        simp [dataToFileInfo, h0, domain.FileInfo.empty]
        omega
    · obtain ⟨h1, h2, h3, h4, h5, h6⟩ := counts logs
      constructor
      · simp [dataToFileInfo, h0]
      · rw [hsum]
        simp [dataToFileInfo, h0]
        omega

/-- Concrete witness for `C1_processLog_invariant`: its bucket-exactness
conjuncts applied to the one-record aggregate, discharging the `k ≠ key`
hypotheses at concrete keys. -/
theorem C1_processLog_invariant_witness :
    ((300 : Int) ≠ sampleLog.Status ∧
      countAt (processLog newData sampleLog).statuses 300
        = countAt newData.statuses 300) ∧
    ("/z" ≠ sampleLog.URL ∧
      countAt (processLog newData sampleLog).urls "/z"
        = countAt newData.urls "/z") := by
  refine ⟨⟨by decide, ?_⟩, ⟨by decide, ?_⟩⟩
  · exact ((C1_processLog_invariant.2.1 newData sampleLog).2.2.2.2.1) 300
      (by decide)
  · exact ((C1_processLog_invariant.2.1 newData sampleLog).2.2.1) "/z"
      (by decide)

/-- C10: for every aggregate reachable from a fresh aggregate by
`processLog` calls with at least one record, the percentile index
`95*n/100` is strictly below the size-list length `n`, and at least one
per-day bucket exists, so `get95p`'s indexing is in bounds and the per-day
average divides by a nonzero divisor. -/
theorem C10_summary_safety (logs : List Log)
    (h : 1 ≤ (runLogs logs).totalRequests) :
    95 * (runLogs logs).sizeSlice.length / 100
        < (runLogs logs).sizeSlice.length ∧
    1 ≤ (runLogs logs).requestsPerDay.length := by
  obtain ⟨h1, _, _, _, _, h6⟩ := foldl_processLog_counts logs newData
  have hz : newData.totalRequests = 0 := rfl
  have hzs : newData.sizeSlice.length = 0 := rfl
  rw [hz] at h1
  rw [hzs] at h6
  simp only [runLogs] at h ⊢
  constructor
  · rw [Nat.div_lt_iff_lt_mul (by omega : (0 : Nat) < 100)]
    omega
  · have hne : logs ≠ [] := by
      intro he
      subst he
      simp only [List.foldl_nil] at h
      rw [hz] at h
      omega
    have hd := foldl_processLog_day_ne_nil logs newData (Or.inl hne)
    cases he : (List.foldl processLog newData logs).requestsPerDay with
    | nil => exact absurd he hd
    | cons a rest => simp

/-- Concrete witness for `C10_summary_safety` at the one-record aggregate. -/
theorem C10_summary_safety_witness :
    1 ≤ (runLogs [sampleLog]).totalRequests ∧
    (95 * (runLogs [sampleLog]).sizeSlice.length / 100
        < (runLogs [sampleLog]).sizeSlice.length ∧
      1 ≤ (runLogs [sampleLog]).requestsPerDay.length) :=
  ⟨by decide, C10_summary_safety [sampleLog] (by decide)⟩

/-- C2: for a non-empty size list of length `n`, the Summary's
95th-percentile field is the element at zero-based index
`floor(0.95 * n) = 95*n/100` of the size list sorted ascending (any
ascending sorted permutation of the list — it is unique), with no
interpolation; for `[92, 922, 2232, 2418, 2668, 2814]` the index is `5`
and the value `2814`. -/
theorem C2_percentile :
    (∀ d : data, d.totalRequests ≠ 0 →
      ((dataToFileInfo d).1).ResponseSize95p = (get95p d.sizeSlice).1) ∧
    (∀ (sl s' : List Int), sl ≠ [] → s'.Perm sl → s'.Sorted (· ≤ ·) →
      (get95p sl).1 = s'.getD (95 * sl.length / 100) 0) ∧
    (get95p [92, 922, 2232, 2418, 2668, 2814]).1 = 2814 ∧
    95 * 6 / 100 = 5 := by
  refine ⟨?_, ?_, by decide, by decide⟩
  · intro d hd
    simp [dataToFileInfo, hd]
  · intro sl s' _ hperm hsorted
    have hsorted2 :
        (List.insertionSort (fun a b : Int => a ≤ b) sl).Sorted
          (fun a b : Int => a ≤ b) :=
      List.sorted_insertionSort _ _
    have heq : s' = List.insertionSort (fun a b : Int => a ≤ b) sl :=
      List.eq_of_perm_of_sorted
        (hperm.trans (List.perm_insertionSort _ _).symm) hsorted hsorted2
    subst heq
    simp [get95p, List.length_insertionSort]

/-- Concrete witness for `C2_percentile`: the sorted-index characterisation
applied at `[2, 1]` with ascending permutation `[1, 2]`. -/
theorem C2_percentile_witness :
    ([2, 1] : List Int) ≠ [] ∧ ([1, 2] : List Int).Perm [2, 1] ∧
    ([1, 2] : List Int).Sorted (· ≤ ·) ∧
    (get95p [2, 1]).1
      = ([1, 2] : List Int).getD (95 * ([2, 1] : List Int).length / 100) 0 :=
  ⟨by decide, by decide, by decide,
    C2_percentile.2.1 [2, 1] [1, 2] (by decide) (by decide) (by decide)⟩

/-- C3 counterexample: the claim states that a record whose timestamp is
one microsecond later than `to`'s day start is dropped.  Take
`to = 86400000000000` (exactly a day start, so `to`'s day start is `to`
itself) and the record timestamp one microsecond (1000 ns) later: the
record's own day start is still `to`, so `to.Before` is false and the
record is KEPT, contradicting the claim. -/
theorem C3_time_filter_counterexample :
    truncDay 86400000000000 = 86400000000000 ∧
    filterTimeKeep none (some 86400000000000) (86400000000000 + 1000)
      = true := by
  constructor
  · decide
  · decide

/-- C3 (amended): the filter drops a record exactly when `from` is set and
strictly later than the exact timestamp, or `to` is set and strictly
earlier than the timestamp truncated to the start of its calendar day;
with both bounds absent every record passes; a record whose timestamp
equals `from` is kept; a record whose day start equals `to` is kept; and a
record whose day start is one microsecond LATER than `to` is dropped (the
claim instead asserted dropping a record whose timestamp is one
microsecond later than `to`'s day start — such a record is kept). -/
theorem C3_time_filter_amended :
    (∀ (tfrom tto : Option Int) (t : Int),
      (filterTimeKeep tfrom tto t = false ↔
        (∃ f, tfrom = some f ∧ t < f) ∨
        (∃ v, tto = some v ∧ v < truncDay t))) ∧
    (∀ t : Int, filterTimeKeep none none t = true) ∧
    (∀ t : Int, filterTimeKeep (some t) none t = true) ∧
    (∀ t : Int, filterTimeKeep none (some (truncDay t)) t = true) ∧
    (∀ (v t : Int), truncDay t = v + 1000 →
      filterTimeKeep none (some v) t = false) := by
  refine ⟨?_, ?_, ?_, ?_, ?_⟩
  · intro tfrom tto t
    cases tfrom with
    | none =>
      cases tto with
      | none => simp [filterTimeKeep]
      | some v => simp [filterTimeKeep]
    | some f =>
      cases tto with
      | none => simp [filterTimeKeep]
      | some v =>
        simp [filterTimeKeep]
        omega
  · intro t
    simp [filterTimeKeep]
  · intro t
    simp [filterTimeKeep]
  · intro t
    simp [filterTimeKeep]
  · intro v t h
    simp [filterTimeKeep]
    omega

/-- Concrete witness for `C3_time_filter_amended`: a record one
microsecond into the day after `to` is dropped. -/
theorem C3_time_filter_amended_witness :
    truncDay 86400000001000 = 86399999999000 + 1000 ∧
    filterTimeKeep none (some 86399999999000) 86400000001000 = false :=
  ⟨by decide,
    C3_time_filter_amended.2.2.2.2 86399999999000 86400000001000
      (by decide)⟩

/-- The two-day, five-record aggregate of the per-day-average example:
three requests on 22/Oct/2024 and two on 23/Oct/2024. -/
def twoDayLogs : List Log :=
  [sampleLog, sampleLog, sampleLog, sampleLog2, sampleLog2]

/-- C6: a finished aggregate with zero total yields the all-zero/empty
Summary and no error; otherwise the average response size is the integer
division of the size sum by the total, and the average responses per day is
the integer division of the sum of the per-day bucket counts by the number
of distinct observed days — e.g. days with 3 and 2 requests give
`(3+2)/2 = 2`. -/
theorem C6_summary_averages :
    (∀ d : data, d.totalRequests = 0 →
      (dataToFileInfo d).1 = domain.FileInfo.empty) ∧
    (∀ d : data, d.totalRequests ≠ 0 →
      ((dataToFileInfo d).1).AvgResponseSize
          = d.sizeSum / (d.totalRequests : Int) ∧
      ((dataToFileInfo d).1).AvgResponsePerDay
          = sumValues d.requestsPerDay / d.requestsPerDay.length) ∧
    (countAt (runLogs twoDayLogs).requestsPerDay "22/Oct/2024" = 3 ∧
      countAt (runLogs twoDayLogs).requestsPerDay "23/Oct/2024" = 2 ∧
      (runLogs twoDayLogs).requestsPerDay.length = 2 ∧
      ((dataToFileInfo (runLogs twoDayLogs)).1).AvgResponsePerDay = 2) := by
  refine ⟨?_, ?_, by decide, by decide, by decide, by decide⟩
  · intro d hd
    simp [dataToFileInfo, hd]
  · intro d hd
    constructor
    · simp [dataToFileInfo, hd]
    · simp [dataToFileInfo, hd]

/-- Concrete witness for `C6_summary_averages`: the zero-total and
nonzero-total clauses applied to concrete aggregates. -/
theorem C6_summary_averages_witness :
    (newData.totalRequests = 0 ∧
      (dataToFileInfo newData).1 = domain.FileInfo.empty) ∧
    ((runLogs twoDayLogs).totalRequests ≠ 0 ∧
      ((dataToFileInfo (runLogs twoDayLogs)).1).AvgResponseSize
        = (runLogs twoDayLogs).sizeSum
            / ((runLogs twoDayLogs).totalRequests : Int)) :=
  ⟨⟨by decide, C6_summary_averages.1 newData (by decide)⟩,
    ⟨by decide,
      (C6_summary_averages.2.1 (runLogs twoDayLogs) (by decide)).1⟩⟩

/-- Strict order "earlier in the URL table": strictly greater count, or
equal count and strictly smaller name. -/
def urlLt (a b : domain.URL) : Prop :=
  b.Quantity < a.Quantity ∨ (a.Quantity = b.Quantity ∧ a.Name < b.Name)

/-- Strict order "earlier in the status table". -/
def statusLt (a b : domain.Status) : Prop :=
  b.Quantity < a.Quantity ∨ (a.Quantity = b.Quantity ∧ a.Code < b.Code)

/-- Strict order "earlier in the address table". -/
def addrLt (a b : domain.Address) : Prop :=
  b.Quantity < a.Quantity ∨ (a.Quantity = b.Quantity ∧ a.Name < b.Name)

/-- Truncating a sorted-by-`le` list keeps it sorted, strictly when the
projection `f` is injective on the input; and its length is
`min k (length input)`. -/
theorem sorted_take_strict {α β : Type} (le lt : α → α → Prop)
    [DecidableRel le] [IsTotal α le] [IsTrans α le] (f : α → β)
    (himp : ∀ a b, le a b → f a ≠ f b → lt a b)
    (l : List α) (h : (l.map f).Nodup) (k : Nat) :
    ((List.insertionSort le l).take k).Sorted lt ∧
    ((List.insertionSort le l).take k).length = min k l.length := by
  constructor
  · have hsorted : (List.insertionSort le l).Sorted le :=
      List.sorted_insertionSort le l
    have hperm : (List.insertionSort le l).Perm l :=
      List.perm_insertionSort le l
    have hnodup : ((List.insertionSort le l).map f).Nodup :=
      ((hperm.map f).nodup_iff).mpr h
    have hpne : (List.insertionSort le l).Pairwise fun a b => f a ≠ f b :=
      List.pairwise_map.mp hnodup
    have hcomb := hsorted.and hpne
    have hstrict : (List.insertionSort le l).Pairwise lt :=
      hcomb.imp fun hab => himp _ _ hab.1 hab.2
    exact hstrict.sublist (List.take_sublist _ _)
  · rw [List.length_take, List.length_insertionSort]

/-- C7: for every aggregate whose per-URL / per-status / per-address maps
have distinct keys (as Go maps always do), each top-N table is sorted by
strictly descending count with ties broken by ascending name (URLs,
addresses) or ascending code (statuses), and its length is the minimum of
3 and the number of distinct keys. -/
theorem C7_frequency_tables (d : data) :
    ((d.urls.map Prod.fst).Nodup →
      (frequentURLs d).Sorted urlLt ∧
      (frequentURLs d).length = min 3 d.urls.length) ∧
    ((d.statuses.map Prod.fst).Nodup →
      (frequentStatuses d).Sorted statusLt ∧
      (frequentStatuses d).length = min 3 d.statuses.length) ∧
    ((d.addresses.map Prod.fst).Nodup →
      (frequentAddresses d).Sorted addrLt ∧
      (frequentAddresses d).length = min 3 d.addresses.length) := by
  refine ⟨?_, ?_, ?_⟩
  · intro h
    have hmap : ((d.urls.map fun p => domain.URL.mk p.1 p.2).map
        domain.URL.Name).Nodup := by
      rw [List.map_map]
      exact h
    have himp : ∀ a b : domain.URL, urlLe a b → a.Name ≠ b.Name →
        urlLt a b := by
      intro a b hab hne
      rcases hab with h1 | ⟨h1, h2⟩
      · exact Or.inl h1
      · exact Or.inr ⟨h1, lt_of_le_of_ne h2 hne⟩
    have hs := sorted_take_strict urlLe urlLt domain.URL.Name himp
      (d.urls.map fun p => domain.URL.mk p.1 p.2) hmap
      (min frequencyLimit
        (List.insertionSort urlLe
          (d.urls.map fun p => domain.URL.mk p.1 p.2)).length)
    obtain ⟨hs1, hs2⟩ := hs
    refine ⟨hs1, ?_⟩
    have hlen : (frequentURLs d).length
        = min (min frequencyLimit
            (List.insertionSort urlLe
              (d.urls.map fun p => domain.URL.mk p.1 p.2)).length)
          (d.urls.map fun p => domain.URL.mk p.1 p.2).length := hs2
    rw [List.length_insertionSort, List.length_map] at hlen
    rw [hlen]
    simp only [frequencyLimit]
    omega
  · intro h
    have hmap : ((d.statuses.map fun p => domain.Status.mk p.1 p.2).map
        domain.Status.Code).Nodup := by
      rw [List.map_map]
      exact h
    have himp : ∀ a b : domain.Status, statusLe a b → a.Code ≠ b.Code →
        statusLt a b := by
      intro a b hab hne
      rcases hab with h1 | ⟨h1, h2⟩
      · exact Or.inl h1
      · exact Or.inr ⟨h1, lt_of_le_of_ne h2 hne⟩
    have hs := sorted_take_strict statusLe statusLt domain.Status.Code himp
      (d.statuses.map fun p => domain.Status.mk p.1 p.2) hmap
      (min frequencyLimit
        (List.insertionSort statusLe
          (d.statuses.map fun p => domain.Status.mk p.1 p.2)).length)
    obtain ⟨hs1, hs2⟩ := hs
    refine ⟨hs1, ?_⟩
    have hlen : (frequentStatuses d).length
        = min (min frequencyLimit
            (List.insertionSort statusLe
              (d.statuses.map fun p => domain.Status.mk p.1 p.2)).length)
          (d.statuses.map fun p => domain.Status.mk p.1 p.2).length := hs2
    rw [List.length_insertionSort, List.length_map] at hlen
    rw [hlen]
    simp only [frequencyLimit]
    omega
  · intro h
    have hmap : ((d.addresses.map fun p => domain.Address.mk p.1 p.2).map
        domain.Address.Name).Nodup := by
      rw [List.map_map]
      exact h
    have himp : ∀ a b : domain.Address, addrLe a b → a.Name ≠ b.Name →
        addrLt a b := by
      intro a b hab hne
      rcases hab with h1 | ⟨h1, h2⟩
      · exact Or.inl h1
      · exact Or.inr ⟨h1, lt_of_le_of_ne h2 hne⟩
    have hs := sorted_take_strict addrLe addrLt domain.Address.Name himp
      (d.addresses.map fun p => domain.Address.mk p.1 p.2) hmap
      (min frequencyLimit
        (List.insertionSort addrLe
          (d.addresses.map fun p => domain.Address.mk p.1 p.2)).length)
    obtain ⟨hs1, hs2⟩ := hs
    refine ⟨hs1, ?_⟩
    have hlen : (frequentAddresses d).length
        = min (min frequencyLimit
            (List.insertionSort addrLe
              (d.addresses.map fun p => domain.Address.mk p.1 p.2)).length)
          (d.addresses.map fun p => domain.Address.mk p.1 p.2).length := hs2
    rw [List.length_insertionSort, List.length_map] at hlen
    rw [hlen]
    simp only [frequencyLimit]
    omega

/-- Concrete witness for `C7_frequency_tables` at the two-day aggregate. -/
theorem C7_frequency_tables_witness :
    (((runLogs twoDayLogs).urls.map Prod.fst).Nodup ∧
      (frequentURLs (runLogs twoDayLogs)).Sorted urlLt ∧
      (frequentURLs (runLogs twoDayLogs)).length
        = min 3 (runLogs twoDayLogs).urls.length) :=
  ⟨by decide,
    ((C7_frequency_tables (runLogs twoDayLogs)).1 (by decide)).1,
    ((C7_frequency_tables (runLogs twoDayLogs)).1 (by decide)).2⟩

/-- An aggregate whose size list is not yet sorted: the input of the
purity counterexample. -/
def mutationData : data :=
  { paths := [], totalRequests := 2, urls := [("/a", 2)],
    statuses := [(200, 2)], sizeSum := 3, sizeSlice := [2, 1],
    addresses := [("x", 2)], requestsPerDay := [("22/Oct/2024", 2)] }

/-- C9 counterexample: building the Summary does NOT leave the aggregate's
size list unchanged — `get95p` runs `sort.Slice` on `parseData.sizeSlice`,
which reorders the slice's backing array in place.  On the aggregate with
size list `[2, 1]` the list afterwards is `[1, 2]`. -/
theorem C9_summary_purity_counterexample :
    ((dataToFileInfo mutationData).2).sizeSlice ≠ mutationData.sizeSlice ∧
    ((dataToFileInfo mutationData).2).sizeSlice = [1, 2] := by
  constructor
  · decide
  · decide

/-- C9 (amended): building the Summary leaves every aggregate field
unchanged EXCEPT the size list, whose multiset of elements is preserved but
which is sorted ascending in place (so its element order may change)
whenever the total is nonzero; with total zero nothing changes at all. -/
theorem C9_summary_purity_amended (d : data) :
    ((dataToFileInfo d).2).paths = d.paths ∧
    ((dataToFileInfo d).2).totalRequests = d.totalRequests ∧
    ((dataToFileInfo d).2).urls = d.urls ∧
    ((dataToFileInfo d).2).statuses = d.statuses ∧
    ((dataToFileInfo d).2).sizeSum = d.sizeSum ∧
    ((dataToFileInfo d).2).addresses = d.addresses ∧
    ((dataToFileInfo d).2).requestsPerDay = d.requestsPerDay ∧
    ((dataToFileInfo d).2).sizeSlice.Perm d.sizeSlice ∧
    (d.totalRequests = 0 → (dataToFileInfo d).2 = d) ∧
    (d.totalRequests ≠ 0 →
      ((dataToFileInfo d).2).sizeSlice.Sorted (· ≤ ·)) := by
  by_cases h : d.totalRequests = 0
  · simp [dataToFileInfo, h]
  · simp [dataToFileInfo, h, get95p]
    exact ⟨List.perm_insertionSort _ _, List.sorted_insertionSort _ _⟩

/-- Concrete witness for `C9_summary_purity_amended` at the counterexample
aggregate: the total is nonzero and the size list afterwards is sorted. -/
theorem C9_summary_purity_amended_witness :
    mutationData.totalRequests ≠ 0 ∧
    ((dataToFileInfo mutationData).2).sizeSlice.Sorted (· ≤ ·) :=
  ⟨by decide,
    (C9_summary_purity_amended mutationData).2.2.2.2.2.2.2.2.2 (by decide)⟩

/-- Where `convertLines` fails, the reported number is the number paired
with a failing line, counting from the start value. -/
theorem convertLines_error_spec (texts : List String) (k n : Nat)
    (e : LogError) (h : convertLines (numberFrom k texts) = .error (n, e)) :
    k ≤ n ∧ n < k + texts.length ∧
    ∃ t, texts.get? (n - k) = some t ∧ lineToLog t = .error e := by
  induction texts generalizing k with
  | nil => simp [numberFrom, convertLines] at h
  | cons t rest ih =>
    cases hl : lineToLog t with
    | error e' =>
      simp only [numberFrom, convertLines, hl, Except.error.injEq,
        Prod.mk.injEq] at h
      obtain ⟨h1, h2⟩ := h
      subst h1
      subst h2
      refine ⟨Nat.le_refl _, by simp only [List.length_cons]; omega, t,
        ?_, hl⟩
      simp
    | ok lg =>
      simp only [numberFrom, convertLines, hl] at h
      cases hr : convertLines (numberFrom (k + 1) rest) with
      | error p =>
        simp only [hr, Except.error.injEq] at h
        subst h
        obtain ⟨ih1, ih2, t', ht', he'⟩ := ih (k + 1) hr
        refine ⟨by omega, by simp only [List.length_cons]; omega, t',
          ?_, he'⟩
        have hidx : n - k = (n - (k + 1)) + 1 := by omega
        rw [hidx]
        simpa using ht'
      | ok logs =>
        simp only [hr] at h
        exact Except.noConfusion h

/-- Where `convertLines` succeeds, it emits exactly one record per line. -/
theorem convertLines_ok_length (texts : List String) (k : Nat)
    (logs : List Log) (h : convertLines (numberFrom k texts) = .ok logs) :
    logs.length = texts.length := by
  induction texts generalizing k logs with
  | nil =>
    simp only [numberFrom, convertLines, Except.ok.injEq] at h
    subst h
    rfl
  | cons t rest ih =>
    cases hl : lineToLog t with
    | error e' =>
      simp only [numberFrom, convertLines, hl] at h
      exact Except.noConfusion h
    | ok lg =>
      simp only [numberFrom, convertLines, hl] at h
      cases hr : convertLines (numberFrom (k + 1) rest) with
      | error p =>
        simp only [hr] at h
        exact Except.noConfusion h
      | ok logs' =>
        simp only [hr, Except.ok.injEq] at h
        subst h
        simp only [List.length_cons]
        rw [ih (k + 1) logs' hr]

/-- C4: `lineToLog` fails exactly when the line does not match the fixed
access-log grammar, or the bracketed timestamp does not parse with the
layout `02/Jan/2006:15:04:05 -0700`, or the status is not an
`strconv.Atoi`-valid integer, or the parsed status has no registered HTTP
reason phrase, or the size is not an `strconv.Atoi`-valid integer; on
success exactly one record is emitted whose ten fields come from the ten
capture groups; and the error surfaced by the conversion stage carries the
1-based number of a failing line. -/
theorem C4_record_parsing (line : String) :
    ((∃ e, lineToLog line = .error e) ↔
      matchAccessLog line = none ∨
      ∃ c, matchAccessLog line = some c ∧
        (goParseTimestamp c.timeLocal = none ∨
         goAtoi c.status = none ∨
         (∃ st, goAtoi c.status = some st ∧ statusRegistered st = false) ∨
         goAtoi c.size = none)) ∧
    (∀ r : Log, lineToLog line = .ok r →
      ∃ c, matchAccessLog line = some c ∧
        r.RemoteAddress = c.remoteAddress ∧ r.RemoteUser = c.remoteUser ∧
        goParseTimestamp c.timeLocal = some r.TimeLocal ∧
        r.Method = c.method ∧ r.URL = c.url ∧
        r.HTTPVersion = c.httpVersion ∧
        goAtoi c.status = some r.Status ∧
        goAtoi c.size = some r.BodyBytesSend ∧
        r.Referer = c.referer ∧ r.UserAgent = c.userAgent) ∧
    (∀ (texts : List String) (n : Nat) (e : LogError),
      convertLines (numberLines texts) = .error (n, e) →
      1 ≤ n ∧ n ≤ texts.length ∧
      ∃ t, texts.get? (n - 1) = some t ∧ lineToLog t = .error e) ∧
    (∀ (texts : List String) (logs : List Log),
      convertLines (numberLines texts) = .ok logs →
      logs.length = texts.length) := by
  refine ⟨?_, ?_, ?_, ?_⟩
  · cases hm : matchAccessLog line with
    | none => simp [lineToLog, hm]
    | some c =>
      cases ht : goParseTimestamp c.timeLocal with
      | none => simp [lineToLog, hm, ht]
      | some tm =>
        cases hs : goAtoi c.status with
        | none => simp [lineToLog, hm, ht, hs]
        | some st =>
          cases hreg : statusRegistered st with
          | false => simp [lineToLog, hm, ht, hs, hreg]
          | true =>
            cases hz : goAtoi c.size with
            | none => simp [lineToLog, hm, ht, hs, hreg, hz]
            | some sz => simp [lineToLog, hm, ht, hs, hreg, hz]
  · intro r hok
    cases hm : matchAccessLog line with
    | none => simp [lineToLog, hm] at hok
    | some c =>
      cases ht : goParseTimestamp c.timeLocal with
      | none => simp [lineToLog, hm, ht] at hok
      | some tm =>
        cases hs : goAtoi c.status with
        | none => simp [lineToLog, hm, ht, hs] at hok
        | some st =>
          cases hreg : statusRegistered st with
          | false => simp [lineToLog, hm, ht, hs, hreg] at hok
          | true =>
            cases hz : goAtoi c.size with
            | none => simp [lineToLog, hm, ht, hs, hreg, hz] at hok
            | some sz =>
              simp only [lineToLog, hm, ht, hs, hreg, hz,
                Bool.true_eq_false, if_false, Except.ok.injEq] at hok
              subst hok
              exact ⟨c, rfl, rfl, rfl, ht, rfl, rfl, rfl, hs, hz, rfl, rfl⟩
  · intro texts n e h
    obtain ⟨h1, h2, h3⟩ := convertLines_error_spec texts 1 n e h
    exact ⟨h1, by omega, h3⟩
  · intro texts logs h
    exact convertLines_ok_length texts 1 logs h

/-- A well-formed access-log line used by concrete witnesses. -/
def sampleLine : String :=
  "130.41.23.21 - - [22/Oct/2024:09:48:45 +0000] \"GET /a HTTP/1.1\" 200 2232 \"-\" \"Mozilla\""

/-- Concrete witness for `C4_record_parsing`: the line `"bad"` fails the
grammar, and in a two-line input whose second line is `"bad"` the surfaced
error carries line number 2. -/
theorem C4_record_parsing_witness :
    (∃ e, lineToLog "bad" = .error e) ∧
    (1 ≤ 2 ∧ 2 ≤ ([sampleLine, "bad"] : List String).length ∧
      ∃ t, ([sampleLine, "bad"] : List String).get? (2 - 1) = some t ∧
        lineToLog t = .error LogError.regexp) :=
  ⟨(C4_record_parsing "bad").1.mpr (Or.inl rfl),
   (C4_record_parsing "bad").2.2.1 [sampleLine, "bad"] 2 LogError.regexp
     rfl⟩

/-- `sampleLog` with the given status code. -/
def statusLog (st : Int) : Log :=
  { sampleLog with Status := st }

/-- The records of the field-filter example: statuses 200, 200, 200, 404,
304. -/
def fiveStatusLogs : List Log :=
  [statusLog 200, statusLog 200, statusLog 200, statusLog 404,
   statusLog 304]

theorem eps_matchContains (l : List Char) :
    RE.eps.matchContains l = true := by
  cases l with
  | nil => rfl
  | cons c rest => simp [RE.matchContains, RE.matchPre, RE.nullable]

/-- C5: the field filter keeps a record exactly when the named field's
text (string fields verbatim, integer fields in decimal, the timestamp in
the `02/Jan/2006` layout) contains a match of the pattern; an unknown or
empty field name keeps every record, and the empty pattern keeps every
record; filtering `Status` with `.04` over statuses 200, 200, 200, 404,
304 keeps exactly the 404 and 304 records. -/
theorem C5_field_filter :
    (∀ (lg : Log) (filed pattern : String),
      (fieldText lg filed = none →
        matchLogByField lg filed pattern = .ok true) ∧
      (∀ (v : String) (re : RE), fieldText lg filed = some v →
        compileRegex pattern = some re →
        (matchLogByField lg filed pattern = .ok true ↔
          re.matchContains v.data = true))) ∧
    (∀ lg : Log, fieldText lg "" = none) ∧
    (∀ (lg : Log) (filed : String),
      matchLogByField lg filed "" = .ok true) ∧
    (fieldText (statusLog 200) "Status" = some "200" ∧
      fieldText (statusLog 404) "Status" = some "404" ∧
      fieldText (statusLog 304) "Status" = some "304" ∧
      filterField "Status" ".04" fiveStatusLogs
        = .ok [statusLog 404, statusLog 304]) := by
  refine ⟨?_, ?_, ?_, rfl, rfl, rfl, rfl⟩
  · intro lg filed pattern
    constructor
    · intro h
      simp [matchLogByField, h]
    · intro v re hv hc
      simp [matchLogByField, hv, goMatchString, hc]
  · intro lg
    rfl
  · intro lg filed
    cases hf : fieldText lg filed with
    | none => simp [matchLogByField, hf]
    | some v =>
      simp [matchLogByField, hf, goMatchString,
        show compileRegex "" = some RE.eps from rfl, eps_matchContains]

/-- Concrete witness for `C5_field_filter`: an unknown field name keeps the
record, and the `Status`/`.04` clause keeps a 404 record. -/
theorem C5_field_filter_witness :
    matchLogByField sampleLog "Foo" ".04" = Except.ok true ∧
    matchLogByField (statusLog 404) "Status" ".04" = Except.ok true :=
  ⟨(C5_field_filter.1 sampleLog "Foo" ".04").1 rfl,
   ((C5_field_filter.1 (statusLog 404) "Status" ".04").2 "404"
      (RE.cat RE.dot (RE.cat (RE.chr '0') (RE.chr '4'))) rfl rfl).mpr rfl⟩

/-- Errors of `filterField` can only come from `matchLogByField`, i.e. from
an invalid pattern. -/
theorem filterField_error_compile (filed pattern : String)
    (logs : List Log) (e : Unit)
    (h : filterField filed pattern logs = .error e) :
    compileRegex pattern = none := by
  induction logs with
  | nil => simp [filterField] at h
  | cons lg rest ih =>
    cases hm : matchLogByField lg filed pattern with
    | error e' =>
      cases hf : fieldText lg filed with
      | none => simp [matchLogByField, hf] at hm
      | some v =>
        cases hc : compileRegex pattern with
        | none => rfl
        | some re => simp [matchLogByField, hf, goMatchString, hc] at hm
    | ok b =>
      simp only [filterField, hm] at h
      cases b with
      | true =>
        cases hr : filterField filed pattern rest with
        | error e' =>
          exact ih hr
        | ok kept =>
          simp only [hr] at h
          exact Except.noConfusion h
      | false =>
        exact ih h

/-- C8: the field-filter stage fails only when the pattern is not a valid
regular expression: with a supported field and a compilable pattern
`matchLogByField` always returns a keep/drop decision, with an unknown or
empty field name it never errors regardless of the pattern, and any error
of the whole stage implies the pattern failed to compile. -/
theorem C8_field_filter_errors :
    (∀ (lg : Log) (filed pattern : String) (e : Unit),
      matchLogByField lg filed pattern = .error e →
      compileRegex pattern = none) ∧
    (∀ (lg : Log) (filed pattern v : String) (re : RE),
      fieldText lg filed = some v → compileRegex pattern = some re →
      matchLogByField lg filed pattern = .ok (re.matchContains v.data)) ∧
    (∀ (lg : Log) (filed pattern : String), fieldText lg filed = none →
      matchLogByField lg filed pattern = .ok true) ∧
    (∀ (filed pattern : String) (logs : List Log) (e : Unit),
      filterField filed pattern logs = .error e →
      compileRegex pattern = none) := by
  refine ⟨?_, ?_, ?_, filterField_error_compile⟩
  · intro lg filed pattern e h
    cases hf : fieldText lg filed with
    | none => simp [matchLogByField, hf] at h
    | some v =>
      cases hc : compileRegex pattern with
      | none => rfl
      | some re => simp [matchLogByField, hf, goMatchString, hc] at h
  · intro lg filed pattern v re hv hc
    simp [matchLogByField, hv, goMatchString, hc]
  · intro lg filed pattern h
    simp [matchLogByField, h]

/-- Concrete witness for `C8_field_filter_errors`: the invalid pattern `(`
errors on a supported field and compiles to nothing, while an unknown
field suppresses even that error. -/
theorem C8_field_filter_errors_witness :
    matchLogByField sampleLog "Status" "(" = Except.error () ∧
    compileRegex "(" = none ∧
    matchLogByField sampleLog "Foo" "(" = Except.ok true :=
  ⟨rfl, C8_field_filter_errors.1 sampleLog "Status" "(" () rfl,
    C8_field_filter_errors.2.2.1 sampleLog "Foo" "(" rfl⟩
